import Mathlib

/-!
Verification of the blitzer-cli text-processing pipeline (`blitzer_cli/processor.py`
and `blitzer_cli/languages/pli.py`) against its natural-language specification.

Text is modelled as `List Char` (`Str`).  Python's `str.lower` is modelled by the
ASCII case map `Char.toLower`; all concrete inputs used below are ASCII, where the
two coincide.  Python `set`s of strings are modelled as `List Str` with membership
(`∈`); Python `dict`s (whose iteration order is insertion order) are modelled as
association lists built by `dictInsert`.  Fallible code (statements that raise)
is modelled with `Except PyErr`.
-/

set_option maxHeartbeats 1000000

abbrev Str := List Char

/-- Coerce a Lean string literal to the `List Char` representation. -/
def strOf (s : String) : Str := s.data

/-- Python `str.lower()` (ASCII case map). -/
def lowerStr (s : Str) : Str := s.map Char.toLower

/-- Python `str.strip()`: drop leading and trailing whitespace. -/
def trimStr (s : Str) : Str :=
  ((s.dropWhile Char.isWhitespace).reverse.dropWhile Char.isWhitespace).reverse

/-- The character class of `regex_tokenize`'s pattern
`[a-zA-ZÀ-ſĀ-ɏḀ-ỿ]`. -/
def isTokChar (c : Char) : Bool :=
  ('a' ≤ c && c ≤ 'z') || ('A' ≤ c && c ≤ 'Z') ||
  (0xC0 ≤ c.toNat && c.toNat ≤ 0x17F) ||
  (0x100 ≤ c.toNat && c.toNat ≤ 0x24F) ||
  (0x1E00 ≤ c.toNat && c.toNat ≤ 0x1EFF)

/-- Helper for `splitWhitespace`: `cur` holds the current word reversed. -/
def splitWSAux (cur : Str) : Str → List Str
  | [] => if cur = [] then [] else [cur.reverse]
  | c :: cs =>
    if c.isWhitespace then
      if cur = [] then splitWSAux [] cs else cur.reverse :: splitWSAux [] cs
    else splitWSAux (c :: cur) cs

/-- Python `str.split()` with no argument: split on whitespace runs, no empty parts. -/
def splitWhitespace (s : Str) : List Str := splitWSAux [] s

/-- Helper for `extractRuns`: `cur` holds the current run reversed. -/
def extractRunsAux (p : Char → Bool) (cur : Str) : Str → List Str
  | [] => if cur = [] then [] else [cur.reverse]
  | c :: cs =>
    if p c then extractRunsAux p (c :: cur) cs
    else if cur = [] then extractRunsAux p [] cs
    else cur.reverse :: extractRunsAux p [] cs

/-- `re.findall` of maximal runs of characters satisfying `p`. -/
def extractRuns (p : Char → Bool) (s : Str) : List Str := extractRunsAux p [] s

/-- `regex_tokenize` (processor.py lines 33-45): lowercase, split on whitespace,
then extract the letter runs of each word. -/
def regex_tokenize (text : Str) : List Str :=
  (splitWhitespace (lowerStr text)).flatMap (extractRuns isTokChar)

/-- `get_exclusion_terms` (processor.py lines 257-299), with the file contents
abstracted to its list of lines: the set comprehension
`{line.strip().lower() for line in f if line.strip()}`. -/
def get_exclusion_terms (lines : List Str) : List Str :=
  (lines.filter (fun l => trimStr l ≠ [])).map (fun l => lowerStr (trimStr l))

/-- Keys in first-encounter order; `seen` is the accumulator of keys already kept. -/
def firstKeysAux (seen : List Str) : List Str → List Str
  | [] => []
  | t :: ts => if t ∈ seen then firstKeysAux seen ts else t :: firstKeysAux (t :: seen) ts

/-- Keys of a token list in first-encounter order (Python dict/Counter key order). -/
def firstKeys (ts : List Str) : List Str := firstKeysAux [] ts

/-- `collections.Counter` over a token sequence, as an association list whose key
order is the first-encounter order of the sequence. -/
def counterList (ts : List Str) : List (Str × Nat) :=
  (firstKeys ts).map (fun k => (k, ts.count k))

/-- processor.py line 353:
`Counter(token for token in tokens if token.lower() not in excluded_terms)`. -/
def token_counts (tokens : List Str) (excluded_terms : List Str) : List (Str × Nat) :=
  counterList (tokens.filter (fun t => lowerStr t ∉ excluded_terms))

/-- Count looked up in a counter association list (0 when the key is absent). -/
def countOf (k : Str) (l : List (Str × Nat)) : Nat := (List.lookup k l).getD 0

/-- One insertion step of Python's stable descending sort by count
(`sorted(..., key=lambda x: x[1], reverse=True)`): the new element goes after
every element of at least its count. -/
def insertByCountDesc (a : Str × Nat) : List (Str × Nat) → List (Str × Nat)
  | [] => [a]
  | b :: bs => if a.2 ≤ b.2 then b :: insertByCountDesc a bs else a :: b :: bs

/-- Left fold of `insertByCountDesc` over the discovery-ordered list. -/
def sortByCountDescAux (acc : List (Str × Nat)) : List (Str × Nat) → List (Str × Nat)
  | [] => acc
  | a :: rest => sortByCountDescAux (insertByCountDesc a acc) rest

/-- processor.py line 400: `sorted(token_counts.items(), key=lambda x: x[1],
reverse=True)` — a stable sort, descending by count. -/
def sortByCountDesc (l : List (Str × Nat)) : List (Str × Nat) :=
  sortByCountDescAux [] l

/-- Python `\w` word-character class, restricted to ASCII (the only characters
exercised by the proofs below). -/
def isWordChar (c : Char) : Bool := c.isAlphanum || c = '_'

/-- A `\b` boundary holds before a word character when the previous character
(`none` at the start of the string) is not a word character. -/
def startBoundary : Option Char → Bool
  | none => true
  | some c => !isWordChar c

/-- A `\b` boundary holds after a word character when the next part of the string
is empty or starts with a non-word character. -/
def endBoundary : Str → Bool
  | [] => true
  | c :: _ => !isWordChar c

/-- Does the all-word-characters pattern `w` match at the head of `s`, with
`prev` the character just before `s` (`re` pattern `\b w \b`)? -/
def wordMatchAt (w s : Str) (prev : Option Char) : Bool :=
  w.isPrefixOf s && startBoundary prev && endBoundary (s.drop w.length)

/-- Scan of `re.search(r"\b" + w + r"\b", s)`. -/
def wordOccursAux (w : Str) (prev : Option Char) : Str → Bool
  | [] => wordMatchAt w [] prev
  | c :: cs => wordMatchAt w (c :: cs) prev || wordOccursAux w (some c) cs

/-- `re.search(r"\b" + re.escape(w) + r"\b", s)` for a pattern `w` made of word
characters: `w` occurs in `s` on whole-word boundaries. -/
def wordOccurs (w s : Str) : Bool := wordOccursAux w none s

/-- Fuel-driven scan of `re.sub(r"\b" + re.escape(o) + r"\b", rep, s,
flags=re.IGNORECASE)`: each non-overlapping whole-word, case-insensitive
occurrence of `o` is replaced by `rep`; scanning resumes after the match. -/
def subWordFuel (o rep : Str) : Nat → Option Char → Str → Str
  | 0, _, s => s
  | _ + 1, _, [] => []
  | n + 1, prev, c :: cs =>
    if wordMatchAt (lowerStr o) (lowerStr (c :: cs)) prev then
      rep ++ subWordFuel o rep n (((c :: cs).take o.length).getLast?) (cs.drop (o.length - 1))
    else
      c :: subWordFuel o rep n (some c) cs

/-- `re.sub` with a whole-word case-insensitive pattern (processor.py lines 382-388). -/
def subWord (o rep s : Str) : Str := subWordFuel o rep s.length none s

/-- Python `str.replace(c, rep)` for a single-character needle. -/
def replaceChar (c : Char) (rep : Str) (s : Str) : Str :=
  s.flatMap (fun x => if x = c then rep else [x])

/-- processor.py lines 368-374: the original tokens whose lemma list contains the
processed token and which occur as a whole word in the lowercased sentence. -/
def foundForms (m : List (Str × List Str)) (k : Str) (sentenceLower : Str) : List Str :=
  (m.filter (fun p => k ∈ p.2 && wordOccurs (lowerStr p.1) sentenceLower)).map (·.1)

/-- processor.py lines 378-391: wrap each found original form in `<b>`..`</b>`
(sequentially, one `re.sub` per form), then escape newlines as `<br>`. -/
def highlightSentence (found : List Str) (sentence : Str) : Str :=
  replaceChar '\r' (strOf "<br>")
    (replaceChar '\n' (strOf "<br>")
      (found.foldl (fun s o => subWord o (strOf "<b>" ++ o ++ strOf "</b>") s) sentence))

/-- processor.py lines 364-395: walk the sentences, appending a highlighted copy
whenever the key's forms occur, stopping once two contexts are collected. -/
def collectContextsAux (m : List (Str × List Str)) (k : Str) (acc : List Str) :
    List Str → List Str
  | [] => acc
  | s :: rest =>
    let found := foundForms m k (lowerStr s)
    let acc' := if found = [] then acc else acc ++ [highlightSentence found s]
    if 2 ≤ acc'.length then acc' else collectContextsAux m k acc' rest

/-- The context list recorded for one output key (`sentence_contexts[processed_token]`). -/
def sentence_contexts_for (m : List (Str × List Str)) (k : Str) (sentences : List Str) :
    List Str :=
  collectContextsAux m k [] sentences

/-- `[A-Z]` test on an optional previous character. -/
def optUpper : Option Char → Bool
  | some c => 'A' ≤ c && c ≤ 'Z'
  | none => false

/-- `[a-z]` test on an optional previous character. -/
def optLower : Option Char → Bool
  | some c => 'a' ≤ c && c ≤ 'z'
  | none => false

/-- `\b` to the left of a word character: the character before it must be absent
or a non-word character. -/
def optNonWord : Option Char → Bool
  | none => true
  | some c => !isWordChar c

/-- Does `split_sentences`'s pattern
`(?<!\b[A-Z]\.)(?<!\b[A-Z][a-z]\.)(?<=[.!?])\s+` match at a whitespace
character preceded by `p1, p2, p3, p4` (most recent first)? -/
def isSentSplit (p1 p2 p3 p4 : Option Char) : Bool :=
  (p1 = some '.' || p1 = some '!' || p1 = some '?')
  && !(p1 = some '.' && optUpper p2 && optNonWord p3)
  && !(p1 = some '.' && optLower p2 && optUpper p3 && optNonWord p4)

/-- Scan for `re.split` of the sentence pattern.  A split is taken at the first
whitespace character of a delimiter run; the rest of the run becomes leading
whitespace of the next piece, which the subsequent `strip` removes (inner
whitespace characters never match because their previous character is
whitespace, not `[.!?]`). -/
def splitSentencesAux (p1 p2 p3 p4 : Option Char) (cur : Str) : Str → List Str
  | [] => [cur.reverse]
  | c :: cs =>
    if c.isWhitespace && isSentSplit p1 p2 p3 p4 then
      cur.reverse :: splitSentencesAux (some c) p1 p2 p3 [] cs
    else
      splitSentencesAux (some c) p1 p2 p3 (c :: cur) cs

/-- `split_sentences` (processor.py lines 418-421): regex split, then strip each
piece and drop the empty ones. -/
def split_sentences (text : Str) : List Str :=
  ((splitSentencesAux none none none none [] text).map trimStr).filter (fun s => s ≠ [])

/-- Python exceptions that the embedded paths can raise. -/
inductive PyErr where
  /-- `NameError: name 'sys' is not defined` — processor.py refers to
  `sys.stderr` (lines 69 and 107) but never has an `import sys`. -/
  | nameErrorSys
  /-- `sqlite3.OperationalError: no such table: Forms` — `sqlite3.connect` on an
  absent store path creates an empty database, so the lookup JOIN fails. -/
  | operationalErrorNoSuchTable
deriving DecidableEq, Repr

/-- Warnings printed successfully through `print_warning` (utils.py). -/
inductive PyWarning where
  /-- "Base mode has no lemmatization. Proceeding without lemmatization." -/
  | baseNoLemmatization
deriving DecidableEq, Repr

/-- The observable state of the lexicon store behind a configured `db_path`. -/
inductive DbState where
  /-- The store file exists; `lookup` maps a lowercased form to the lemma column
  of every row of `Forms JOIN Lemmas` matching it (`COLLATE NOCASE`), `[]` when
  no row matches. -/
  | present (lookup : Str → List Str)
  /-- The store file is absent: `sqlite3.connect` silently creates an empty
  database without a `Forms` table. -/
  | absentFile

/-- The language specification dict returned by a language's register function
(cf. `get_language_spec`), with the database path replaced by the observable
state of the store behind it. -/
structure LanguageSpec where
  normalizer : Option (Str → Str)
  tokenizer : Option (Str → List Str)
  custom_lemmatizer : Option (List Str → List Str)
  db_path : Option DbState

/-- The `'base'` language specification (processor.py lines 136-142). -/
def baseSpec : LanguageSpec :=
  { normalizer := none, tokenizer := none, custom_lemmatizer := none, db_path := none }

/-- Python dict assignment `d[k] = v`: overwrite in place when the key exists,
else append (insertion order preserved). -/
def dictInsert (d : List (Str × List Str)) (k : Str) (v : List Str) :
    List (Str × List Str) :=
  if d.any (fun p => p.1 = k) then d.map (fun p => if p.1 = k then (k, v) else p)
  else d ++ [(k, v)]

/-- processor.py lines 214-226, per token: the grouped lookup result for the
lowercased token when non-empty, else the token itself. -/
def lemmasFor (lookup : Str → List Str) (t : Str) : List Str :=
  if lookup (lowerStr t) = [] then [t] else lookup (lowerStr t)

/-- The dict `original_to_all_lemmas_map` built by the loop of
`sql_lemmatize_tokens_with_mapping` (one assignment per token occurrence). -/
def buildLemmaMap (lookup : Str → List Str) (tokens : List Str) :
    List (Str × List Str) :=
  tokens.foldl (fun d t => dictInsert d t (lemmasFor lookup t)) []

/-- The dict `{token: [token] for token in tokens}`. -/
def buildIdentityMap (tokens : List Str) : List (Str × List Str) :=
  tokens.foldl (fun d t => dictInsert d t [t]) []

/-- `sql_lemmatize_tokens_with_mapping` (processor.py lines 172-228).  An empty
token list returns before touching the database; with an absent store file the
batch lookup query raises `OperationalError`; otherwise every occurrence of a
token extends the result with all of that token's lemmas. -/
def sql_lemmatize_tokens_with_mapping (db : DbState) (tokens : List Str) :
    Except PyErr (List Str × List (Str × List Str)) :=
  if tokens = [] then pure ([], [])
  else match db with
    | .absentFile => throw .operationalErrorNoSuchTable
    | .present lookup => pure (tokens.flatMap (lemmasFor lookup), buildLemmaMap lookup tokens)

/-- processor.py lines 66-70: with `prompt_flag` set and no (or an empty)
configured prompt, the code reaches `print(..., file=sys.stderr)` and raises
`NameError` since `sys` is unbound in processor.py. -/
def promptStage (prompt_flag : Bool) (promptConfigured : Option Str) :
    Except PyErr Bool :=
  if prompt_flag then
    match promptConfigured with
    | some p => if p = [] then throw .nameErrorSys else pure true
    | none => throw .nameErrorSys
  else pure false

/-- processor.py lines 84-115: the lemmatization branch chain of `process_text`.
Returns the warnings printed, the processed tokens, and
`original_to_all_lemmas_map`. -/
def lemmatizeStage (spec : LanguageSpec) (isBase : Bool) (lemmatize_flag : Bool)
    (original_tokens : List Str) :
    Except PyErr (List PyWarning × List Str × List (Str × List Str)) :=
  if lemmatize_flag then
    if isBase then
      pure ([.baseNoLemmatization], original_tokens, buildIdentityMap original_tokens)
    else match spec.custom_lemmatizer with
      | some f =>
        let processed := f original_tokens
        pure ([], processed,
          (original_tokens.zip processed).foldl (fun d p => dictInsert d p.1 [p.2]) [])
      | none => match spec.db_path with
        | some db => do
          let r ← sql_lemmatize_tokens_with_mapping db original_tokens
          pure ([], r.1, r.2)
        | none => throw .nameErrorSys
  else
    pure ([], original_tokens, buildIdentityMap original_tokens)

/-- Decimal rendering of a count (`str(count)`). -/
def natStr (n : Nat) : Str := (Nat.repr n).data

/-- `"; ".join(output_parts)` (processor.py line 413). -/
def joinParts (parts : List Str) : Str := List.intercalate (strOf "; ") parts

/-- processor.py lines 408-410: the bracketed, comma-joined, double-quoted
context field. -/
def contextField (cs : List Str) : Str :=
  strOf "[" ++
    List.intercalate (strOf ", ") (cs.map (fun c => strOf "\x22" ++ c ++ strOf "\x22"))
  ++ strOf "]"

/-- `_format_output` (processor.py lines 328-415). -/
def _format_output (tokens original_tokens : List Str) (m : List (Str × List Str))
    (normalized_text : Str) (excluded_terms : List Str)
    (freq_flag context_flag prompt_flag src_flag : Bool)
    (promptConfigured : Option Str) : Str :=
  let srcLines : List Str :=
    if src_flag then [strOf "SOURCE TEXT:", [], normalized_text, [], strOf "------"]
    else []
  let promptLines : List Str :=
    if prompt_flag then
      match promptConfigured with
      | some p =>
        if p = [] then []
        else [strOf "PROMPT:", [], p, [], strOf "------", strOf "******", strOf "------", []]
      | none => []
    else []
  let counts := token_counts tokens excluded_terms
  let sentences := split_sentences normalized_text
  let entryLines := (sortByCountDesc counts).map (fun kc =>
    joinParts ([kc.1]
      ++ (if freq_flag then [natStr kc.2] else [])
      ++ (if context_flag && sentence_contexts_for m kc.1 sentences ≠ [] then
            [contextField (sentence_contexts_for m kc.1 sentences)]
          else [])))
  List.intercalate [Char.ofNat 10] (srcLines ++ promptLines ++ entryLines) ++ [Char.ofNat 10]

/-- `process_text` (processor.py lines 48-130).  The exclusion file's contents
are passed as its list of lines; the prompt configuration as
`promptConfigured`. -/
def process_text (spec : LanguageSpec) (isBase : Bool) (promptConfigured : Option Str)
    (exclusionLines : List Str) (text : Str)
    (lemmatize_flag freq_flag context_flag prompt_flag src_flag : Bool) :
    Except PyErr (List PyWarning × Str) := do
  let promptFlag ← promptStage prompt_flag promptConfigured
  let normalized_text :=
    match spec.normalizer with
    | some f => f text
    | none => lowerStr text
  let original_tokens :=
    match spec.tokenizer with
    | some f => f normalized_text
    | none => regex_tokenize normalized_text
  let r ← lemmatizeStage spec isBase lemmatize_flag original_tokens
  let excluded_terms := get_exclusion_terms exclusionLines
  pure (r.1,
    _format_output r.2.1 original_tokens r.2.2 normalized_text excluded_terms
      freq_flag context_flag promptFlag src_flag promptConfigured)

/-- Python `str.strip('[]')`: drop leading and trailing `[` / `]` characters. -/
def stripBrackets (s : Str) : Str :=
  ((s.dropWhile (fun c => c = '[' || c = ']')).reverse.dropWhile
    (fun c => c = '[' || c = ']')).reverse

/-- Python `str.split(sep)` for a one-character separator (keeps empty parts). -/
def splitCharAux (sep : Char) (cur : Str) : Str → List Str
  | [] => [cur.reverse]
  | c :: cs =>
    if c = sep then cur.reverse :: splitCharAux sep [] cs
    else splitCharAux sep (c :: cur) cs

/-- Python `str.split(sep)` for a one-character separator. -/
def splitChar (sep : Char) (s : Str) : List Str := splitCharAux sep [] s

/-- Python `str.isdigit()` restricted to ASCII digits. -/
def pyIsDigit (s : Str) : Bool := s ≠ [] && s.all Char.isDigit

/-- Decimal digits to the `int` they denote. -/
def digitsToNat (s : Str) : Nat := s.foldl (fun n c => n * 10 + (c.toNat - 48)) 0

/-- pli.py lines 45-52: parse the bracketed comma-separated headword-ID list. -/
def paliHeadwordIds (hs : Str) : List Nat :=
  (((splitChar ',' (stripBrackets hs)).map trimStr).filter pyIsDigit).map digitsToNat

/-- The Pali lexicon store: `lookup` maps a lowercased `lookup_key` to its
`headwords` column (`none` = no row, `some none` = NULL column); `headwords`
maps a `dpd_headwords` row id to its `lemma_1`. -/
structure PaliDb where
  lookup : Str → Option (Option Str)
  headwords : Nat → Option Str

/-- The distinct `lemma_1` rows returned by
`SELECT lemma_1 FROM dpd_headwords WHERE id IN (...)` (one row per matching
table row; `List.dedup` models the set-valued `IN`). -/
def paliResolved (db : PaliDb) (hs : Str) : List Str :=
  (paliHeadwordIds hs).dedup.filterMap db.headwords

/-- pli.py line 64: `lemma_result[0].split(' ')[0].lower()` — keep the part
before the first space (stripping numeric homograph suffixes such as
`"run 2"`), lowercased. -/
def paliStrip (s : Str) : Str := lowerStr (s.takeWhile (fun c => c ≠ ' '))

/-- `PaliProcessor.lemmatize` (pli.py lines 28-70).  `conn` is false when the
store failed to open (`_connect_db` caught the error and left `self.conn`
as `None`).  The final `list(set(lemmas))` is modelled by `List.dedup`
(Python's set order is unspecified; all claims about it are order-insensitive). -/
def pali_lemmatize (db : PaliDb) (conn : Bool) (word : Str) : List Str :=
  if conn = false then [lowerStr word]
  else match db.lookup (lowerStr word) with
  | none => [lowerStr word]
  | some none => [lowerStr word]
  | some (some hs) =>
    if hs = [] then [lowerStr word]
    else if paliHeadwordIds hs = [] then [lowerStr word]
    else
      let lemmas := (paliResolved db hs).map paliStrip
      if lemmas = [] then [lowerStr word] else lemmas.dedup

theorem mem_firstKeysAux {k : Str} :
    ∀ (ts seen : List Str), k ∈ firstKeysAux seen ts ↔ (k ∈ ts ∧ k ∉ seen) := by
  intro ts
  induction ts with
  | nil => intro seen; simp [firstKeysAux]
  | cons t ts ih =>
    intro seen
    rw [firstKeysAux]
    by_cases h : t ∈ seen
    · rw [if_pos h, ih seen]
      simp only [List.mem_cons]
      constructor
      · rintro ⟨h1, h2⟩
        exact ⟨Or.inr h1, h2⟩
      · rintro ⟨h1 | h1, h2⟩
        · exact absurd (h1 ▸ h) h2
        · exact ⟨h1, h2⟩
    · rw [if_neg h]
      simp only [List.mem_cons, ih (t :: seen), List.mem_cons]
      constructor
      · rintro (h1 | ⟨h1, h2⟩)
        · exact ⟨Or.inl h1, h1 ▸ h⟩
        · exact ⟨Or.inr h1, fun hk => h2 (Or.inr hk)⟩
      · rintro ⟨h1 | h1, h2⟩
        · exact Or.inl h1
        · by_cases hkt : k = t
          · exact Or.inl hkt
          · exact Or.inr ⟨h1, fun hk => hk.elim hkt h2⟩

theorem mem_firstKeys {k : Str} {ts : List Str} : k ∈ firstKeys ts ↔ k ∈ ts := by
  rw [firstKeys, mem_firstKeysAux]
  simp

theorem lookup_map_pair (f : Str → Nat) (k : Str) :
    ∀ ks : List Str,
      List.lookup k (ks.map (fun a => (a, f a))) = if k ∈ ks then some (f k) else none := by
  intro ks
  induction ks with
  | nil => simp
  | cons a ks ih =>
    simp only [List.map_cons, List.lookup_cons]
    by_cases h : k = a
    · subst h
      simp
    · have hb : (k == a) = false := by simp [h]
      rw [hb]
      simp only [ih, List.mem_cons]
      by_cases hm : k ∈ ks <;> simp [hm, h]

theorem countOf_counterList (k : Str) (l : List Str) :
    countOf k (counterList l) = l.count k := by
  rw [countOf, counterList, lookup_map_pair]
  by_cases h : k ∈ firstKeys l
  · rw [if_pos h]
    rfl
  · rw [if_neg h]
    have : k ∉ l := fun hm => h (mem_firstKeys.mpr hm)
    simp [List.count_eq_zero_of_not_mem this]

theorem count_filter_prop (k : Str) (excl : List Str) (l : List Str) :
    (l.filter (fun t => lowerStr t ∉ excl)).count k
      = if lowerStr k ∈ excl then 0 else l.count k := by
  by_cases h : lowerStr k ∈ excl
  · rw [if_pos h]
    rw [List.count_eq_zero]
    intro hm
    have := List.of_mem_filter hm
    simp only [decide_eq_true_eq] at this
    exact this h
  · rw [if_neg h]
    rw [List.count_filter]
    simp [h]

/-- The count recorded for key `k` by the counter of processor.py line 353:
0 when the lowercased key is excluded, otherwise the full occurrence count. -/
theorem countOf_token_counts (k : Str) (toks excl : List Str) :
    countOf k (token_counts toks excl) = if lowerStr k ∈ excl then 0 else toks.count k := by
  rw [token_counts, countOf_counterList, count_filter_prop]

/-- Descending-count order between output entries. -/
def countGE (x y : Str × Nat) : Prop := y.2 ≤ x.2

theorem insert_perm (a : Str × Nat) :
    ∀ l : List (Str × Nat), (insertByCountDesc a l).Perm (a :: l) := by
  intro l
  induction l with
  | nil => rfl
  | cons b bs ih =>
    rw [insertByCountDesc]
    by_cases h : a.2 ≤ b.2
    · rw [if_pos h]
      exact (ih.cons b).trans (List.Perm.swap a b bs)
    · rw [if_neg h]

theorem sortAux_perm :
    ∀ (l acc : List (Str × Nat)), (sortByCountDescAux acc l).Perm (acc ++ l) := by
  intro l
  induction l with
  | nil => intro acc; simp [sortByCountDescAux]
  | cons a rest ih =>
    intro acc
    rw [sortByCountDescAux]
    refine ((ih (insertByCountDesc a acc)).trans ?_)
    refine (((insert_perm a acc).append_right rest).trans ?_)
    exact List.perm_middle.symm

theorem sort_perm (l : List (Str × Nat)) : (sortByCountDesc l).Perm l := by
  simpa using sortAux_perm l []

theorem pairwise_insert (a : Str × Nat) :
    ∀ l : List (Str × Nat), l.Pairwise countGE → (insertByCountDesc a l).Pairwise countGE := by
  intro l
  induction l with
  | nil => intro _; simp [insertByCountDesc, List.pairwise_cons]
  | cons b bs ih =>
    intro h
    rw [List.pairwise_cons] at h
    obtain ⟨hb, hbs⟩ := h
    rw [insertByCountDesc]
    by_cases hab : a.2 ≤ b.2
    · rw [if_pos hab, List.pairwise_cons]
      refine ⟨fun x hx => ?_, ih hbs⟩
      rcases List.mem_cons.mp ((insert_perm a bs).mem_iff.mp hx) with hx | hx
      · exact hx ▸ hab
      · exact hb x hx
    · rw [if_neg hab, List.pairwise_cons]
      refine ⟨fun x hx => ?_, List.pairwise_cons.mpr ⟨hb, hbs⟩⟩
      rcases List.mem_cons.mp hx with hx | hx
      · exact hx ▸ le_of_lt (lt_of_not_le hab)
      · exact le_trans (hb x hx) (le_of_lt (lt_of_not_le hab))

theorem pairwise_sortAux :
    ∀ (l acc : List (Str × Nat)), acc.Pairwise countGE →
      (sortByCountDescAux acc l).Pairwise countGE := by
  intro l
  induction l with
  | nil => intro acc h; exact h
  | cons a rest ih =>
    intro acc h
    exact ih _ (pairwise_insert a acc h)

/-- The emitted entry list is sorted by descending count. -/
theorem sorted_sortByCountDesc (l : List (Str × Nat)) :
    (sortByCountDesc l).Pairwise countGE :=
  pairwise_sortAux l [] List.Pairwise.nil

theorem filter_insert (c : Nat) (a : Str × Nat) :
    ∀ l : List (Str × Nat), l.Pairwise countGE →
      (insertByCountDesc a l).filter (fun x => x.2 = c)
        = if a.2 = c then l.filter (fun x => x.2 = c) ++ [a]
          else l.filter (fun x => x.2 = c) := by
  intro l
  induction l with
  | nil =>
    intro _
    by_cases hac : a.2 = c <;> simp [insertByCountDesc, List.filter, hac]
  | cons b bs ih =>
    intro h
    rw [List.pairwise_cons] at h
    obtain ⟨hb, hbs⟩ := h
    rw [insertByCountDesc]
    by_cases hab : a.2 ≤ b.2
    · rw [if_pos hab]
      by_cases hbc : b.2 = c <;> by_cases hac : a.2 = c <;>
        simp [List.filter_cons, hbc, hac, ih hbs]
    · rw [if_neg hab]
      by_cases hac : a.2 = c
      · have hnil : bs.filter (fun x => x.2 = c) = [] := by
          rw [List.filter_eq_nil_iff]
          intro x hx
          have : x.2 ≤ b.2 := hb x hx
          simp only [decide_eq_true_eq]
          omega
        have hbc : ¬ b.2 = c := by omega
        simp [List.filter_cons, hac, hbc, hnil]
      · simp [List.filter_cons, hac]

theorem filter_sortAux (c : Nat) :
    ∀ (l acc : List (Str × Nat)), acc.Pairwise countGE →
      (sortByCountDescAux acc l).filter (fun x => x.2 = c)
        = acc.filter (fun x => x.2 = c) ++ l.filter (fun x => x.2 = c) := by
  intro l
  induction l with
  | nil => intro acc _; simp [sortByCountDescAux]
  | cons a rest ih =>
    intro acc h
    rw [sortByCountDescAux, ih _ (pairwise_insert a acc h), filter_insert c a acc h]
    by_cases hac : a.2 = c <;> simp [List.filter_cons, hac]

/-- Stability of the emission sort: within one count value, entries keep their
first-encounter order. -/
theorem stable_sortByCountDesc (c : Nat) (l : List (Str × Nat)) :
    (sortByCountDesc l).filter (fun x => x.2 = c) = l.filter (fun x => x.2 = c) := by
  rw [sortByCountDesc, filter_sortAux c l [] List.Pairwise.nil]
  rfl

theorem takeWhile_append_of_all {p : Char → Bool} :
    ∀ (b : Str) (c : Char) (d : Str), (∀ x ∈ b, p x = true) → p c = false →
      (b ++ c :: d).takeWhile p = b := by
  intro b
  induction b with
  | nil =>
    intro c d _ hc
    simp [List.takeWhile_cons, hc]
  | cons x xs ih =>
    intro c d hall hc
    have hx : p x = true := hall x (List.mem_cons_self x xs)
    simp only [List.cons_append, List.takeWhile_cons, hx]
    rw [ih c d (fun y hy => hall y (List.mem_cons_of_mem x hy)) hc]
    simp

theorem collectContextsAux_length_le :
    ∀ (ss : List Str) (m : List (Str × List Str)) (k : Str) (acc : List Str),
      acc.length ≤ 1 → (collectContextsAux m k acc ss).length ≤ 2 := by
  intro ss
  induction ss with
  | nil => intro m k acc h; rw [collectContextsAux]; omega
  | cons s rest ih =>
    intro m k acc h
    rw [collectContextsAux]
    set acc2 := if foundForms m k (lowerStr s) = [] then acc
      else acc ++ [highlightSentence (foundForms m k (lowerStr s)) s] with hacc
    have hlen : acc2.length ≤ acc.length + 1 := by
      rw [hacc]
      split
      · omega
      · simp
    by_cases h2 : 2 ≤ acc2.length
    · rw [if_pos h2]
      omega
    · rw [if_neg h2]
      exact ih m k acc2 (by omega)

/-- A one-entry lexicon: surface form "ran" resolves to lemma "run". -/
def c1Lookup : Str → List Str := fun s => if s = strOf "ran" then [strOf "run"] else []

/-- A language spec whose store contains `c1Lookup`. -/
def c1Spec : LanguageSpec :=
  { normalizer := none, tokenizer := none, custom_lemmatizer := none,
    db_path := some (.present c1Lookup) }

/-- A language spec whose configured store file is absent. -/
def absentDbSpec : LanguageSpec :=
  { normalizer := none, tokenizer := none, custom_lemmatizer := none,
    db_path := some .absentFile }

/-- Claim C1, counterexample.  The surface form "ran" is in the exclusion set,
yet with lemmatization enabled the run emits `run; 1`: the excluded token is
not skipped before lemma resolution and its (non-excluded) lemma "run" is
incremented. -/
theorem C1_counterexample :
    lowerStr (strOf "ran") ∈ get_exclusion_terms [strOf "ran"]
    ∧ process_text c1Spec false none [strOf "ran"] (strOf "ran")
        true true false false false
      = .ok ([], strOf "run; 1\n")
    ∧ countOf (strOf "run")
        (token_counts ([strOf "ran"].flatMap (lemmasFor c1Lookup)) [strOf "ran"]) = 1 :=
  ⟨by decide, by rfl, by decide⟩

/-- Claim C1, amended: in flat mode with lemmatization, a token whose normalized
surface form is in the ExclusionSet is NOT skipped before lemma resolution —
it still contributes one increment to every non-excluded key it resolves to;
exclusion is enforced only at the output-key stage, where keys whose lowercased
form is excluded get no count at all. -/
theorem C1_exclusion_only_at_output_keys :
    ∀ (lookup : Str → List Str) (tokens excl : List Str) (k : Str),
      (lowerStr k ∈ excl →
        countOf k (token_counts (tokens.flatMap (lemmasFor lookup)) excl) = 0)
      ∧ (lowerStr k ∉ excl →
        countOf k (token_counts (tokens.flatMap (lemmasFor lookup)) excl)
          = (tokens.flatMap (lemmasFor lookup)).count k) := by
  intro lookup tokens excl k
  constructor
  · intro h
    rw [countOf_token_counts, if_pos h]
  · intro h
    rw [countOf_token_counts, if_neg h]

/-- Witness for `C1_exclusion_only_at_output_keys` at the counterexample input:
the non-excluded lemma "run" receives the full fan-in count even though its
only source token "ran" is excluded by surface form. -/
theorem C1_witness :
    countOf (strOf "run")
        (token_counts ([strOf "ran"].flatMap (lemmasFor c1Lookup)) [strOf "ran"])
      = ([strOf "ran"].flatMap (lemmasFor c1Lookup)).count (strOf "run") :=
  (C1_exclusion_only_at_output_keys c1Lookup [strOf "ran"] [strOf "ran"] (strOf "run")).2
    (by decide)

/-- Claim C2 is violated by the code: requesting the prompt flag with no (or an
empty) configured prompt reaches `print(..., file=sys.stderr)` in a module
with no `import sys`, so the run raises `NameError` instead of warning and
continuing. -/
theorem C2_missing_prompt_raises :
    process_text baseSpec true none [] (strOf "hello") false false false true false
      = .error .nameErrorSys := by rfl

/-- Claim C3 is violated by the code: with a configured but absent store file,
`sqlite3.connect` creates an empty database and the batch lookup JOIN raises
`sqlite3.OperationalError` (no `Forms` table), aborting the run instead of
degrading to identity lemmatization. -/
theorem C3_absent_store_raises :
    process_text absentDbSpec false none [] (strOf "word") true false false false false
      = .error .operationalErrorNoSuchTable := by rfl

/-- A registered (non-base) language whose spec has neither a custom lemmatizer
nor a lexicon database. -/
def noLemmatizerSpec : LanguageSpec :=
  { normalizer := none, tokenizer := none, custom_lemmatizer := none, db_path := none }

/-- Claim C4 is violated by the code for every non-base language with no
lemmatizer: the warning branch at processor.py line 107 refers to `sys.stderr`
with `sys` unbound, so the run raises `NameError` instead of warning once and
degrading to identity. -/
theorem C4_no_lemmatizer_raises :
    process_text noLemmatizerSpec false none [] (strOf "hello") true false false false false
      = .error .nameErrorSys := by rfl

/-- Claim C5: a key whose lowercased (normalized) form is in the ExclusionSet
never appears among the emitted output entries — the counter of
processor.py line 353 filters it out before rendering. -/
theorem C5_excluded_key_never_emitted :
    ∀ (tokens excl : List Str) (k : Str), lowerStr k ∈ excl →
      k ∉ (sortByCountDesc (token_counts tokens excl)).map Prod.fst := by
  intro tokens excl k h hmem
  rw [List.mem_map] at hmem
  obtain ⟨p, hp, hpk⟩ := hmem
  have hp2 : p ∈ token_counts tokens excl :=
    (sort_perm (token_counts tokens excl)).mem_iff.mp hp
  rw [token_counts, counterList, List.mem_map] at hp2
  obtain ⟨k0, hk0, hk0p⟩ := hp2
  have hk : k0 = k := by rw [← hpk, ← hk0p]
  subst hk
  have hmem2 : k0 ∈ tokens.filter (fun t => lowerStr t ∉ excl) := mem_firstKeys.mp hk0
  have hpred := List.of_mem_filter hmem2
  simp only [decide_eq_true_eq] at hpred
  exact hpred h

/-- Witness for `C5_excluded_key_never_emitted`: excluding "the" suppresses the
key "the" even though the token occurs. -/
theorem C5_witness :
    strOf "the" ∉ (sortByCountDesc (token_counts [strOf "the"] [strOf "the"])).map Prod.fst :=
  C5_excluded_key_never_emitted [strOf "the"] [strOf "the"] (strOf "the") (by decide)

/-- Claim C6: emitted entries are sorted by descending count; within one count
value the first-encounter order is preserved (stable sort); and the worked
example "test word test another word test" with frequency on yields exactly
`test; 3`, `word; 2`, `another; 1` in that order. -/
theorem C6_output_order :
    (∀ (tokens excl : List Str),
        (sortByCountDesc (token_counts tokens excl)).Pairwise countGE)
    ∧ (∀ (tokens excl : List Str) (c : Nat),
        (sortByCountDesc (token_counts tokens excl)).filter (fun x => x.2 = c)
          = (token_counts tokens excl).filter (fun x => x.2 = c))
    ∧ process_text baseSpec true none [] (strOf "test word test another word test")
        false true false false false
      = .ok ([], strOf "test; 3\nword; 2\nanother; 1\n") :=
  ⟨fun _ _ => sorted_sortByCountDesc _,
   fun _ _ c => stable_sortByCountDesc c _,
   by rfl⟩

/-- Claim C7: for a token whose lookup row carries a non-empty headword-ID list
(that parses to at least one ID resolving in `dpd_headwords`), the Pali
lemmatizer returns exactly the resolved headword strings with everything from
the first space on stripped and lowercased, deduplicated; in particular a
headword stored as `base ++ " " ++ suffix` (numeric homograph suffix)
contributes `lowercase base`. -/
theorem C7_pali_lemma_normalization :
    ∀ (db : PaliDb) (w hs : Str),
      db.lookup (lowerStr w) = some (some hs) → hs ≠ [] →
      paliHeadwordIds hs ≠ [] → paliResolved db hs ≠ [] →
      pali_lemmatize db true w = ((paliResolved db hs).map paliStrip).dedup
      ∧ (pali_lemmatize db true w).Nodup
      ∧ ∀ s ∈ paliResolved db hs, ∀ b d : Str,
          s = b ++ ' ' :: d → ' ' ∉ b → lowerStr b ∈ pali_lemmatize db true w := by
  intro db w hs hrow hne hids hres
  have hmapne : (paliResolved db hs).map paliStrip ≠ [] := by
    rw [Ne, List.map_eq_nil_iff]
    exact hres
  have heval : pali_lemmatize db true w = ((paliResolved db hs).map paliStrip).dedup := by
    unfold pali_lemmatize
    rw [hrow]
    rw [if_neg (by decide : ¬ ((true : Bool) = false))]
    dsimp only
    rw [if_neg hne, if_neg hids, if_neg hmapne]
  refine ⟨heval, heval ▸ List.nodup_dedup _, ?_⟩
  intro s hsmem b d hsplit hbns
  rw [heval, List.mem_dedup, List.mem_map]
  refine ⟨s, hsmem, ?_⟩
  rw [paliStrip, hsplit]
  rw [takeWhile_append_of_all b ' ' d ?_ (by decide)]
  intro x hx
  simp only [decide_eq_true_eq]
  exact fun hxe => hbns (hxe ▸ hx)

/-- A two-headword Pali store: "runs" resolves to IDs 1 and 2, whose headwords
are "run 2" (homograph) and "walk". -/
def c7Db : PaliDb :=
  { lookup := fun s => if s = strOf "runs" then some (some (strOf "[1, 2]")) else none,
    headwords := fun n =>
      if n = 1 then some (strOf "run 2") else if n = 2 then some (strOf "walk") else none }

/-- Witness for `C7_pali_lemma_normalization`: the homograph "run 2" yields the
suffix-stripped lowercase lemma "run". -/
theorem C7_witness :
    pali_lemmatize c7Db true (strOf "runs")
      = ((paliResolved c7Db (strOf "[1, 2]")).map paliStrip).dedup
    ∧ strOf "run" ∈ pali_lemmatize c7Db true (strOf "runs") := by
  have h := C7_pali_lemma_normalization c7Db (strOf "runs") (strOf "[1, 2]")
    (by rfl) (by decide) (by decide) (by decide)
  exact ⟨h.1, h.2.2 (strOf "run 2") (by decide) (strOf "run") (strOf "2")
    (by decide) (by decide)⟩

theorem count_eq_one_of_nodup_mem :
    ∀ {l : List Str} {a : Str}, l.Nodup → a ∈ l → l.count a = 1 := by
  intro l
  induction l with
  | nil => intro a _ h; cases h
  | cons b bs ih =>
    intro a hnd hm
    rw [List.nodup_cons] at hnd
    rcases List.mem_cons.mp hm with h | h
    · subst h
      rw [List.count_cons_self, List.count_eq_zero_of_not_mem hnd.1]
    · have hne2 : a ≠ b := by
        intro he
        exact hnd.1 (he ▸ h)
      rw [List.count_cons_of_ne hne2 bs]
      exact ih hnd.2 h

/-- Claim C8: each occurrence of a token adds exactly 1 to the output count of
every one of its (distinct) lemma candidates — fan-out counting, not a split
or single increment. -/
theorem C8_fanout_counting :
    ∀ (lookup : Str → List Str) (ts : List Str) (t : Str) (excl : List Str) (l : Str),
      (lemmasFor lookup t).Nodup → l ∈ lemmasFor lookup t → lowerStr l ∉ excl →
      countOf l (token_counts ((ts ++ [t]).flatMap (lemmasFor lookup)) excl)
        = countOf l (token_counts (ts.flatMap (lemmasFor lookup)) excl) + 1 := by
  intro lookup ts t excl l hnd hmem hexcl
  rw [countOf_token_counts, countOf_token_counts, if_neg hexcl, if_neg hexcl]
  rw [List.flatMap_append, List.count_append]
  have h1 : ([t].flatMap (lemmasFor lookup)).count l = 1 := by
    have he : [t].flatMap (lemmasFor lookup) = lemmasFor lookup t := by simp
    rw [he]
    exact count_eq_one_of_nodup_mem hnd hmem
  rw [h1]

/-- A two-candidate lexicon: "bank" resolves to both "bank1" and "bank2". -/
def c8Lookup : Str → List Str :=
  fun s => if s = strOf "bank" then [strOf "bank1", strOf "bank2"] else []

/-- Witness for `C8_fanout_counting`: one occurrence of "bank" raises the count
of candidate "bank1" by exactly 1. -/
theorem C8_witness :
    countOf (strOf "bank1")
        (token_counts (([strOf "x"] ++ [strOf "bank"]).flatMap (lemmasFor c8Lookup)) [])
      = countOf (strOf "bank1")
          (token_counts ([strOf "x"].flatMap (lemmasFor c8Lookup)) []) + 1 :=
  C8_fanout_counting c8Lookup [strOf "x"] (strOf "bank") [] (strOf "bank1")
    (by decide) (by decide) (by decide)

/-- The `original_to_all_lemmas_map` the pipeline builds for the document
"hi there. hi there." without lemmatization. -/
def c9Map : List (Str × List Str) :=
  buildIdentityMap (regex_tokenize (lowerStr (strOf "hi there. hi there.")))

/-- Claim C9, counterexample for its deduplication part: the document repeats
the sentence "hi there.", and the context list recorded for key "hi" stores
the identical highlighted sentence text twice — the code only caps the list at
2, it never checks whether the sentence was already recorded. -/
theorem C9_counterexample :
    sentence_contexts_for c9Map (strOf "hi")
        (split_sentences (lowerStr (strOf "hi there. hi there.")))
      = [strOf "<b>hi</b> there.", strOf "<b>hi</b> there."]
    ∧ ¬ (sentence_contexts_for c9Map (strOf "hi")
        (split_sentences (lowerStr (strOf "hi there. hi there.")))).Nodup :=
  ⟨by decide, by decide⟩

/-- Claim C9, amended: in context mode each key's recorded context list has at
most 2 entries, but the same sentence text CAN be stored twice for one key
when the document contains the sentence twice (no dedup check exists). -/
theorem C9_at_most_two_contexts :
    (∀ (m : List (Str × List Str)) (k : Str) (sentences : List Str),
        (sentence_contexts_for m k sentences).length ≤ 2)
    ∧ ¬ (sentence_contexts_for c9Map (strOf "hi")
        (split_sentences (lowerStr (strOf "hi there. hi there.")))).Nodup :=
  ⟨fun m k sentences => collectContextsAux_length_le sentences m k [] (by simp),
   by decide⟩

/-- Claim C10: exclusion matching is case-insensitive end to end — a candidate
key's lowercased form is in the loaded exclusion set iff some non-blank line
of the exclusion file agrees with it after stripping and lowercasing, and a
key whose lowercased form is in the set is given no count. -/
theorem C10_exclusion_case_insensitive :
    ∀ (lines : List Str) (k : Str) (tokens : List Str),
      (lowerStr k ∈ get_exclusion_terms lines
        ↔ ∃ l ∈ lines, trimStr l ≠ [] ∧ lowerStr k = lowerStr (trimStr l))
      ∧ (lowerStr k ∈ get_exclusion_terms lines →
          countOf k (token_counts tokens (get_exclusion_terms lines)) = 0) := by
  intro lines k tokens
  constructor
  · rw [get_exclusion_terms]
    constructor
    · intro h
      rw [List.mem_map] at h
      obtain ⟨l, hl, he⟩ := h
      rw [List.mem_filter] at hl
      refine ⟨l, hl.1, ?_, he.symm⟩
      simpa using hl.2
    · rintro ⟨l, hl, hne, he⟩
      rw [List.mem_map]
      exact ⟨l, List.mem_filter.mpr ⟨hl, by simpa using hne⟩, he.symm⟩
  · intro h
    rw [countOf_token_counts, if_pos h]

/-- Witness for `C10_exclusion_case_insensitive`: the file line "  The " (mixed
case, padded) suppresses the differently-cased key "tHe". -/
theorem C10_witness :
    countOf (strOf "tHe")
        (token_counts [strOf "tHe"] (get_exclusion_terms [strOf "  The "])) = 0 :=
  (C10_exclusion_case_insensitive [strOf "  The "] (strOf "tHe") [strOf "tHe"]).2
    (by decide)
